import Mathlib

/-!
Verification of the simple expression calculator in `src/main.cpp`.

The embedding models the calculator's double values as exact rationals (ℚ),
its `int` values as mathematical integers wrapped to 32 bits where the source
can overflow, and `cin` as a finite list of characters.  The recursive-descent
parser/evaluator chain (`expression`, `term`, `secondary`, `primary`,
`eval_function`, together with the statement dispatcher `statement`,
`declaration` and `assignment`) is a single fuel-indexed interpreter `run`
whose modes correspond one-to-one to the mutually recursive C++ functions;
structural recursion on the fuel keeps every definition kernel-computable.
Exceptions are modelled by `Except`, with the thrown error paired with the
state of the token stream at the throw point (the C++ global `Token_stream`
keeps its buffer and `cin` position when an exception unwinds).
-/

/-- Calculator values: `double` in the source, modelled as exact rationals. -/
abbrev Value := ℚ

/-- Builds the rational n/1 as a literal `Rat` structure.  Used instead of the
`Nat.cast` coercion so that tokenized integer literals reduce inside the
kernel (the coercion's normalization step does not). -/
def natToQ (n : ℕ) : ℚ := ⟨(n : Int), 1, one_ne_zero, Nat.coprime_one_right _⟩

/-- Truncation of a rational toward zero, the effect of C++'s
`static_cast<int>` on a `double` value (src/main.cpp:411) and of the
truncation inside `fmod`.  `Int.tdiv` is C's truncating division and
`q.den` is positive, so this is exactly the integral part of `q`. -/
def truncQ (q : ℚ) : Int := Int.tdiv q.num q.den

/-- Two's-complement wrap-around of a mathematical integer to a 32-bit
signed `int`, the value actually produced by the overflowing `x *= i`
in `factorial` (src/main.cpp:305). -/
def wrap32 (v : Int) : Int := (v + 2 ^ 31) % 2 ^ 32 - 2 ^ 31

/-- Token kinds, mirroring the `constexpr char` constants
(src/main.cpp:143-153). -/
def t_number : Char := '8'

def t_print : Char := ';'

def t_name : Char := 'a'

def t_quit : Char := 'q'

def t_sqrt : Char := 'S'

def t_pow : Char := 'P'

def t_decl : Char := '#'

def t_assign : Char := '='

def t_const : Char := 'C'

def t_help : Char := 'h'

def t_symbols : Char := '$'

/-- Keyword strings (src/main.cpp:156-164). -/
def quitkey : String := "quit"

def declkey : String := "let"

def constkey : String := "const"

def helpkey : String := "help"

def symbkey : String := "symbols"

def sqrtkey : String := "sqrt"

def powkey : String := "pow"

/-- Grammar token (src/main.cpp:90-103): a kind character plus the payload
fields `value` (numbers) and `name` (identifiers). -/
structure Token where
  kind : Char
  value : Value := 0
  name : String := ""
deriving DecidableEq, Repr

/-- Error kinds, one per distinct `runtime_error` thrown by the source.
For `divideByZero`, the flag records whether the message carried the
`"%: "` prefix (src/main.cpp:435 and 444). -/
inductive Err
  | badToken
  | numericLiteral
  | undefinedRead (name : String)
  | constantWrite
  | undefinedWrite (name : String)
  | duplicateDecl (name : String)
  | negativeFactorial
  | overflowInt
  | sqrtParenExpected
  | negativeSqrt
  | sqrtPrimaryExpected
  | powCommaExpected
  | powParenExpected
  | powPrimaryExpected
  | functionNotImplemented
  | parenExpected
  | braceExpected
  | primaryExpected
  | divideByZero (isMod : Bool)
  | nameExpected
  | missingEquals (name : String)
  | notDeclared (name : String)
  | endOfInput
  | fuelExhausted
deriving DecidableEq, Repr

/-- The token stream (src/main.cpp:106-116): the pushback buffer (a
`std::vector` used as a stack: `push_back`/`back`/`pop_back`, the head of
this list models the vector's back) plus the remaining characters of `cin`. -/
structure Token_stream where
  buffer : List Token
  input : List Char
deriving DecidableEq, Repr

/-- Puts Token t back into the buffer, modelling `buffer.push_back(t)`
(src/main.cpp:168-170). -/
def Token_stream.putback (t : Token) (s : Token_stream) : Token_stream :=
  ⟨t :: s.buffer, s.input⟩

/-- C's `isspace` for the characters this program distinguishes. -/
def isspaceC (c : Char) : Bool :=
  c == ' ' || c == '\t' || c == '\n' || c == '\r' || c == '\x0b' || c == '\x0c'

/-- Models the loop `char ch = ' '; while (isspace(ch) && ch != '\n')
cin.get(ch);` (src/main.cpp:181-183): returns the first character that is
not whitespace-other-than-newline, consuming it; `none` when `cin` is
exhausted (the stream enters its failed state). -/
def skip_space : List Char → Option (Char × List Char)
  | [] => none
  | c :: cs => if isspaceC c && !(c == '\n') then skip_space cs else some (c, cs)

/-- Accumulates the numeric value of a digit run, most significant first. -/
def digits_val (acc : ℕ) : List Char → ℕ
  | [] => acc
  | c :: cs => digits_val (acc * 10 + (c.toNat - Char.toNat '0')) cs

/-- Models `cin >> val` for a `double` (src/main.cpp:205-208) on the plain
literal forms `digits`, `digits.digits`, `digits.` and `.digits` that this
program's grammar produces (exponent forms are not modelled; no claim uses
them).  Greedy maximal match; a lone `.` with no digit is the parse failure
surfaced by the stream. -/
def parse_double (cs : List Char) : Option (Value × List Char) :=
  let ip := cs.takeWhile Char.isDigit
  let r1 := cs.dropWhile Char.isDigit
  match r1 with
  | '.' :: r2 =>
    let fp := r2.takeWhile Char.isDigit
    let r3 := r2.dropWhile Char.isDigit
    if ip.isEmpty && fp.isEmpty then none
    else some (natToQ (digits_val 0 ip) + natToQ (digits_val 0 fp) / natToQ (10 ^ fp.length), r3)
  | _ => if ip.isEmpty then none else some (natToQ (digits_val 0 ip), r1)

/-- Models `Token_stream::get` (src/main.cpp:173-236).  The buffer is
consulted first (taking its back); otherwise whitespace other than newline
is skipped and the next character is dispatched: `;` or newline makes a
print token, the fixed punctuation characters represent themselves (note
that this set contains `q`, `#` and `=`), a digit or `.` starts a numeric
literal, an alphabetic character starts a maximal alphanumeric-or-underscore
word matched against the keyword table, and anything else throws
"bad token".  Exhausted input is `endOfInput` (the real stream enters its
failed state and no further token is ever produced). -/
def Token_stream.get (s : Token_stream) : Except (Err × Token_stream) (Token × Token_stream) :=
  match s.buffer with
  | t :: rest => .ok (t, ⟨rest, s.input⟩)
  | [] =>
    match skip_space s.input with
    | none => .error (.endOfInput, ⟨[], []⟩)
    | some (ch, cs) =>
      if ch = t_print ∨ ch = '\n' then .ok (Token.mk t_print 0 "", ⟨[], cs⟩)
      else if ch = t_decl ∨ ch = t_quit ∨ ch = t_assign ∨ ch = '(' ∨ ch = ')' ∨ ch = '{' ∨
          ch = '}' ∨ ch = ',' ∨ ch = '+' ∨ ch = '-' ∨ ch = '*' ∨ ch = '/' ∨ ch = '!' then
        .ok (Token.mk ch 0 "", ⟨[], cs⟩)
      else if ch = '.' ∨ ch.isDigit then
        match parse_double (ch :: cs) with
        | some (v, cs2) => .ok (Token.mk t_number v "", ⟨[], cs2⟩)
        | none => .error (.numericLiteral, ⟨[], cs⟩)
      else if ch.isAlpha then
        let w := cs.takeWhile fun c => c.isAlpha || c.isDigit || c == '_'
        let cs2 := cs.dropWhile fun c => c.isAlpha || c.isDigit || c == '_'
        let word := String.mk (ch :: w)
        if word = constkey then .ok (Token.mk t_const 0 "", ⟨[], cs2⟩)
        else if word = declkey then .ok (Token.mk t_decl 0 "", ⟨[], cs2⟩)
        else if word = sqrtkey then .ok (Token.mk t_sqrt 0 "", ⟨[], cs2⟩)
        else if word = powkey then .ok (Token.mk t_pow 0 "", ⟨[], cs2⟩)
        else if word = helpkey then .ok (Token.mk t_help 0 "", ⟨[], cs2⟩)
        else if word = symbkey then .ok (Token.mk t_symbols 0 "", ⟨[], cs2⟩)
        else if word = quitkey then .ok (Token.mk t_quit 0 "", ⟨[], cs2⟩)
        else .ok (Token.mk t_name 0 word, ⟨[], cs2⟩)
      else .error (.badToken, ⟨[], cs⟩)

/-- Models the `while (cin >> ch)` scan of `Token_stream::ignore`
(src/main.cpp:247-250): formatted `char` extraction skips all whitespace
(newlines included) without comparing it, and each non-whitespace character
is compared to `c`, which is consumed when found; exhausting `cin` leaves
the stream failed. -/
def scan_to (c : Char) : List Char → List Char
  | [] => []
  | x :: xs => if isspaceC x then scan_to c xs else if x = c then xs else scan_to c xs

/-- Models `Token_stream::ignore` (src/main.cpp:239-251): first pop all
buffered tokens whose kind is not `c`; if a `c`-kind token is found it is
left in the buffer and the input untouched, otherwise the raw input is
scanned (by `scan_to`) up to and including a `c` character. -/
def Token_stream.ignore (s : Token_stream) (c : Char) : Token_stream :=
  let b := s.buffer.dropWhile fun t => !(t.kind == c)
  if b.isEmpty then ⟨[], scan_to c s.input⟩ else ⟨b, s.input⟩

/-- A defined (name, value) pair with its mutability flag
(src/main.cpp:119-124). -/
structure Variable where
  name : String
  value : Value
  constant : Bool
deriving DecidableEq, Repr

/-- The symbol table's `var_table` vector (src/main.cpp:127-136). -/
abbrev Symbol_table := List Variable

/-- Models `Symbol_table::get_value` (src/main.cpp:254-259): linear scan,
value of the first entry with the given name, otherwise "trying to read
undefined variable". -/
def Symbol_table.get_value : Symbol_table → String → Except Err Value
  | [], s => .error (.undefinedRead s)
  | v :: rest, s =>
    if v.name = s then .ok v.value else Symbol_table.get_value rest s

/-- Models `Symbol_table::set_value` (src/main.cpp:262-271): at the first
entry with the given name, throw "trying to write to constant" if it is
constant, otherwise overwrite its value in place; if no entry matches,
throw "trying to write undefined variable". -/
def Symbol_table.set_value : Symbol_table → String → Value → Except Err Symbol_table
  | [], s, _ => .error (.undefinedWrite s)
  | v :: rest, s, d =>
    if v.name = s then
      if v.constant then .error .constantWrite
      else .ok ({ v with value := d } :: rest)
    else
      match Symbol_table.set_value rest s d with
      | .ok rest2 => .ok (v :: rest2)
      | .error e => .error e

/-- Models `Symbol_table::is_declared` (src/main.cpp:274-278). -/
def Symbol_table.is_declared (tbl : Symbol_table) (var : String) : Bool :=
  tbl.any fun v => v.name == var

/-- Models `Symbol_table::define_name` (src/main.cpp:281-286): throw
"declared twice" on a present name, otherwise `push_back` the new entry
and return the value. -/
def Symbol_table.define_name (tbl : Symbol_table) (var : String) (val : Value)
    (constant : Bool) : Except Err (Value × Symbol_table) :=
  if Symbol_table.is_declared tbl var then .error (.duplicateDecl var)
  else .ok (val, tbl ++ [⟨var, val, constant⟩])

/-- The value 3.1415926535 of the predefined constant `pi`. -/
def piVal : Value := natToQ 31415926535 / natToQ 10000000000

/-- The value 2.7182818284 of the predefined constant `e`. -/
def eVal : Value := natToQ 27182818284 / natToQ 10000000000

/-- The symbol table produced by the three `define_name` calls in `main`
(src/main.cpp:601-603) before any user input is processed. -/
def startup : Symbol_table :=
  [⟨"pi", piVal, true⟩, ⟨"e", eVal, true⟩, ⟨"k", natToQ 1000, false⟩]

/-- Models the loop of `factorial` (src/main.cpp:303-309): `for (int i =
x-1; i > 0; --i) { prev = x; x *= i; if (prev != 0 && x/prev != i) throw
"overflow occurred in int."; }`.  The multiplication wraps to 32 bits (what
the hardware does on the source's signed overflow) and the division is C's
truncating division. -/
def factorial_loop : ℕ → Int → Except Err Int
  | 0, x => .ok x
  | i + 1, x =>
    let x2 := wrap32 (x * ((i : Int) + 1))
    if x ≠ 0 ∧ Int.tdiv x2 x ≠ (i : Int) + 1 then .error .overflowInt
    else factorial_loop i x2

/-- Models `factorial` (src/main.cpp:296-312): negative arguments throw
"cannot get factorial of negative number.", zero is replaced by one, and
the loop accumulates the product with overflow detection. -/
def factorial (x : Int) : Except Err Int :=
  if x < 0 then .error .negativeFactorial
  else
    let x1 := if x = 0 then 1 else x
    factorial_loop (x1 - 1).toNat x1

/-- Models `fmod(a, b)` (src/main.cpp:445) on exact values: the
floating-point remainder a - trunc(a/b)·b, which C's `fmod` computes
exactly, with both operands used in full (neither is truncated). -/
def fmodQ (a b : Value) : Value := a - (truncQ (a / b) : ℚ) * b

/-- Models `sqrt` (src/main.cpp:335) at the arguments where its value is
rational: the exact square root when numerator and denominator are perfect
squares, an unspecified placeholder otherwise.  No claim depends on the
value this returns. -/
def sqrtQ (a : Value) : Value :=
  natToQ (Nat.sqrt a.num.toNat) / natToQ (Nat.sqrt a.den)

/-- Models `pow(x, y)` (src/main.cpp:361) at the arguments where its value
is rational: the integer power when the exponent is an integer, an
unspecified placeholder otherwise.  The claims evaluate it only at integer
exponents, where real exponentiation agrees with `zpow`. -/
def powQ (x y : Value) : Value := if y.den = 1 then x ^ y.num else 0

/-- One mode per function of the mutually recursive evaluator chain and
statement dispatcher; the `Loop` modes carry the accumulator `left` of the
corresponding `while (true)` loop. -/
inductive Mode
  | expression
  | expressionLoop (left : Value)
  | term
  | termLoop (left : Value)
  | secondary
  | secondaryLoop (left : Value)
  | primary
  | evalFunction (ft : Token)
  | statement
  | declaration (constant : Bool)
  | assignment

/-- The evaluator chain and statement dispatcher (src/main.cpp:314-524) as
one fuel-indexed interpreter; each mode's branch is the body of the C++
function of the same name.  The symbol table is the global `symbols`,
threaded through every call; a thrown error carries the token stream as it
stands at the throw point.  The fuel only bounds recursion depth so that
the definition is structural; `fuelExhausted` is unreachable for the
adequately fuelled runs the theorems use. -/
def run : ℕ → Mode → Symbol_table → Token_stream →
    Except (Err × Token_stream) (Value × Symbol_table × Token_stream)
  | 0, _, _, s => .error (.fuelExhausted, s)
  | n + 1, .expression, tbl, s => do
    let (left, tbl, s) ← run n .term tbl s
    run n (.expressionLoop left) tbl s
  | n + 1, .expressionLoop left, tbl, s => do
    let (t, s) ← s.get
    if t.kind = '+' then
      let (d, tbl, s) ← run n .term tbl s
      run n (.expressionLoop (left + d)) tbl s
    else if t.kind = '-' then
      let (d, tbl, s) ← run n .term tbl s
      run n (.expressionLoop (left - d)) tbl s
    else .ok (left, tbl, s.putback t)
  | n + 1, .term, tbl, s => do
    let (left, tbl, s) ← run n .secondary tbl s
    run n (.termLoop left) tbl s
  | n + 1, .termLoop left, tbl, s => do
    let (t, s) ← s.get
    if t.kind = '*' then
      let (d, tbl, s) ← run n .secondary tbl s
      run n (.termLoop (left * d)) tbl s
    else if t.kind = '/' then
      let (d, tbl, s) ← run n .secondary tbl s
      if d = 0 then .error (.divideByZero false, s)
      else run n (.termLoop (left / d)) tbl s
    else if t.kind = '%' then
      let (d, tbl, s) ← run n .secondary tbl s
      if d = 0 then .error (.divideByZero true, s)
      else run n (.termLoop (fmodQ left d)) tbl s
    else .ok (left, tbl, s.putback t)
  | n + 1, .secondary, tbl, s => do
    let (left, tbl, s) ← run n .primary tbl s
    run n (.secondaryLoop left) tbl s
  | n + 1, .secondaryLoop left, tbl, s => do
    let (t, s) ← s.get
    if t.kind = '!' then
      match factorial (truncQ left) with
      | .ok f => run n (.secondaryLoop ((f : ℚ))) tbl s
      | .error e => .error (e, s)
    else .ok (left, tbl, s.putback t)
  | n + 1, .primary, tbl, s => do
    let (t, s) ← s.get
    if t.kind = '(' then
      let (d, tbl, s) ← run n .expression tbl s
      let (t2, s) ← s.get
      if t2.kind ≠ ')' then .error (.parenExpected, s) else .ok (d, tbl, s)
    else if t.kind = '{' then
      let (d, tbl, s) ← run n .expression tbl s
      let (t2, s) ← s.get
      if t2.kind ≠ '}' then .error (.braceExpected, s) else .ok (d, tbl, s)
    else if t.kind = t_sqrt ∨ t.kind = t_pow then run n (.evalFunction t) tbl s
    else if t.kind = t_number then .ok (t.value, tbl, s)
    else if t.kind = '-' then
      let (d, tbl, s) ← run n .primary tbl s
      .ok (-d, tbl, s)
    else if t.kind = '+' then
      let (d, tbl, s) ← run n .primary tbl s
      .ok (d, tbl, s)
    else if t.kind = t_name then
      match Symbol_table.get_value tbl t.name with
      | .ok v => .ok (v, tbl, s)
      | .error e => .error (e, s)
    else .error (.primaryExpected, s)
  | n + 1, .evalFunction ft, tbl, s =>
    if ft.kind = t_sqrt then do
      let (t, s) ← s.get
      if t.kind = '(' then
        let (d, tbl, s) ← run n .expression tbl s
        let (t2, s) ← s.get
        if t2.kind ≠ ')' then .error (.sqrtParenExpected, s)
        else if d < 0 then .error (.negativeSqrt, s)
        else .ok (sqrtQ d, tbl, s)
      else .error (.sqrtPrimaryExpected, s)
    else if ft.kind = t_pow then do
      let (t, s) ← s.get
      if t.kind = '(' then
        let (d1, tbl, s) ← run n .expression tbl s
        let (t2, s) ← s.get
        if t2.kind ≠ ',' then .error (.powCommaExpected, s)
        else do
          let (d2, tbl, s) ← run n .expression tbl s
          let (t3, s) ← s.get
          if t3.kind ≠ ')' then .error (.powParenExpected, s)
          else .ok (powQ d1 d2, tbl, s)
      else .error (.powPrimaryExpected, s)
    else .error (.functionNotImplemented, s)
  | n + 1, .statement, tbl, s => do
    let (t, s) ← s.get
    if t.kind = t_const then run n (.declaration true) tbl s
    else if t.kind = t_decl then run n (.declaration false) tbl s
    else if t.kind = t_name then do
      let (t2, s) ← s.get
      let s := (s.putback t2).putback t
      if t2.kind = t_assign then run n .assignment tbl s
      else run n .expression tbl s
    else run n .expression tbl (s.putback t)
  | n + 1, .declaration constant, tbl, s => do
    let (t, s) ← s.get
    if t.kind ≠ t_name then .error (.nameExpected, s)
    else do
      let (t2, s) ← s.get
      if t2.kind ≠ '=' then .error (.missingEquals t.name, s)
      else do
        let (d, tbl, s) ← run n .expression tbl s
        match Symbol_table.define_name tbl t.name d constant with
        | .ok (_, tbl2) => .ok (d, tbl2, s)
        | .error e => .error (e, s)
  | n + 1, .assignment, tbl, s => do
    let (t, s) ← s.get
    if !(Symbol_table.is_declared tbl t.name) then .error (.notDeclared t.name, s)
    else do
      let (_, s) ← s.get
      let (d, tbl, s) ← run n .expression tbl s
      match Symbol_table.set_value tbl t.name d with
      | .ok tbl2 => .ok (d, tbl2, s)
      | .error e => .error (e, s)

/-- Entry point `expression` (src/main.cpp:457-475). -/
def expression (n : ℕ) (tbl : Symbol_table) (s : Token_stream) :
    Except (Err × Token_stream) (Value × Symbol_table × Token_stream) :=
  run n .expression tbl s

/-- Entry point `term` (src/main.cpp:422-454). -/
def term (n : ℕ) (tbl : Symbol_table) (s : Token_stream) :
    Except (Err × Token_stream) (Value × Symbol_table × Token_stream) :=
  run n .term tbl s

/-- Entry point `secondary` (src/main.cpp:405-419). -/
def secondary (n : ℕ) (tbl : Symbol_table) (s : Token_stream) :
    Except (Err × Token_stream) (Value × Symbol_table × Token_stream) :=
  run n .secondary tbl s

/-- Entry point `primary` (src/main.cpp:369-402). -/
def primary (n : ℕ) (tbl : Symbol_table) (s : Token_stream) :
    Except (Err × Token_stream) (Value × Symbol_table × Token_stream) :=
  run n .primary tbl s

/-- Entry point `statement` (src/main.cpp:505-524). -/
def statement (n : ℕ) (tbl : Symbol_table) (s : Token_stream) :
    Except (Err × Token_stream) (Value × Symbol_table × Token_stream) :=
  run n .statement tbl s

/-- Models `clean_up` (src/main.cpp:527-529): discard to the next `;`. -/
def clean_up (s : Token_stream) : Token_stream := s.ignore t_print

/-- One visible output of the main loop per statement: the printed result,
the printed error message, or the help/symbols dumps. -/
inductive Out
  | result (v : Value)
  | errorMsg (e : Err)
  | helpText
  | symbolsDump (tbl : Symbol_table)
deriving DecidableEq, Repr

/-- Models `Token t = ts.get(); while (t.kind == t_print) t = ts.get();`
(src/main.cpp:570-572). -/
def discard_prints : ℕ → Token_stream → Except (Err × Token_stream) (Token × Token_stream)
  | 0, s => .error (.fuelExhausted, s)
  | n + 1, s => do
    let (t, s2) ← s.get
    if t.kind = t_print then discard_prints n s2 else .ok (t, s2)

/-- Models the `calculate` loop (src/main.cpp:566-593) on a finite input,
collecting the per-statement outputs and the final symbol table.  A
successful statement prints its result; a thrown statement error prints
the error message and recovers through `clean_up`.  When a read hits the
exhausted input (`endOfInput`) the real program produces no further
output (`while (cin)` fails, or the whitespace-skip loop in `get` spins
on the failed stream), so the model stops the loop there. -/
def calculate : ℕ → Symbol_table → Token_stream → List Out × Symbol_table
  | 0, tbl, _ => ([], tbl)
  | n + 1, tbl, ts =>
    match discard_prints (n + 1) ts with
    | .error (e, ts2) =>
      if e = .endOfInput ∨ e = .fuelExhausted then ([], tbl)
      else
        let r := calculate n tbl (clean_up ts2)
        (Out.errorMsg e :: r.1, r.2)
    | .ok (t, ts1) =>
      if t.kind = t_quit then ([], tbl)
      else if t.kind = t_help then
        let r := calculate n tbl ts1
        (Out.helpText :: r.1, r.2)
      else if t.kind = t_symbols then
        let r := calculate n tbl ts1
        (Out.symbolsDump tbl :: r.1, r.2)
      else
        match run n .statement tbl (ts1.putback t) with
        | .ok (v, tbl2, ts2) =>
          let r := calculate n tbl2 ts2
          (Out.result v :: r.1, r.2)
        | .error (e, ts2) =>
          if e = .endOfInput ∨ e = .fuelExhausted then ([], tbl)
          else
            let r := calculate n tbl (clean_up ts2)
            (Out.errorMsg e :: r.1, r.2)

/-- A fresh session: empty pushback buffer, the given text as `cin`. -/
def mkTS (text : String) : Token_stream := ⟨[], text.toList⟩

/-- A number token, as produced for a literal with value v. -/
def numTok (v : Value) : Token := ⟨t_number, v, ""⟩

/-- A self-representing punctuation token. -/
def opTok (c : Char) : Token := ⟨c, 0, ""⟩

/-- The print (statement terminator) token. -/
def printTok : Token := ⟨t_print, 0, ""⟩

/-- Reachable symbol-table states: the startup table, closed under the two
mutating operations when they succeed.  `get_value` and `is_declared` never
modify the table, and a failing `define_name`/`set_value` throws before
writing anything, so these are all the states the table can assume. -/
inductive Reachable : Symbol_table → Prop
  | startup : Reachable startup
  | defineStep {tbl tbl2 : Symbol_table} {var : String} {val : Value} {c : Bool} {v : Value} :
      Reachable tbl → Symbol_table.define_name tbl var val c = .ok (v, tbl2) → Reachable tbl2
  | setStep {tbl tbl2 : Symbol_table} {var : String} {val : Value} :
      Reachable tbl → Symbol_table.set_value tbl var val = .ok tbl2 → Reachable tbl2

/-! ## Helper lemmas -/

/-- natToQ agrees with the numeral coercion. -/
theorem natToQ_eq (n : ℕ) : natToQ n = (n : ℚ) :=
  Rat.ext (Rat.num_natCast n).symm (Rat.den_natCast n).symm

/-- On nonnegative rationals, truncation toward zero is the floor. -/
theorem truncQ_eq_floor {q : ℚ} (h : 0 ≤ q) : truncQ q = ⌊q⌋ := by
  unfold truncQ
  rw [Int.tdiv_eq_ediv (Rat.num_nonneg.mpr h) (Int.natCast_nonneg q.den)]
  exact Rat.floor_def.symm

/-- On nonpositive rationals, truncation toward zero is the ceiling. -/
theorem truncQ_eq_ceil {q : ℚ} (h : q ≤ 0) : truncQ q = ⌈q⌉ := by
  have hneg : 0 ≤ -q := neg_nonneg.mpr h
  have h1 : truncQ (-q) = ⌊-q⌋ := truncQ_eq_floor hneg
  have h2 : truncQ (-q) = -truncQ q := by
    unfold truncQ
    rw [Rat.num_neg_eq_neg_num, Rat.den_neg_eq_den, Int.neg_tdiv]
  have h3 : ⌈q⌉ = -⌊-q⌋ := by
    rw [← Int.ceil_neg, neg_neg]
  omega


/-- Wrap-around is the identity on values already in 32-bit range. -/
theorem wrap32_eq_self {v : Int} (h1 : -(2 ^ 31) ≤ v) (h2 : v < 2 ^ 31) : wrap32 v = v := by
  unfold wrap32
  rw [Int.emod_eq_of_lt (by linarith) (by norm_num; linarith)]
  ring

/-- Wrapped values lie in the 32-bit signed range. -/
theorem wrap32_bounds (v : Int) : -(2 ^ 31) ≤ wrap32 v ∧ wrap32 v < 2 ^ 31 := by
  unfold wrap32
  have h1 : 0 ≤ (v + 2 ^ 31) % 2 ^ 32 := Int.emod_nonneg _ (by norm_num)
  have h2 : (v + 2 ^ 31) % 2 ^ 32 < 2 ^ 32 := Int.emod_lt_of_pos _ (by norm_num)
  constructor <;> [linarith; linarith [show (2:Int) ^ 32 = 2 ^ 31 + 2 ^ 31 by norm_num]]

/-- When every partial product stays below 2^31, the factorial loop computes
x · i! exactly and succeeds. -/
theorem factorial_loop_ok (i : ℕ) : ∀ x : Int, 1 ≤ x → x * (i.factorial : Int) < 2 ^ 31 →
    factorial_loop i x = .ok (x * (i.factorial : Int)) := by
  induction i with
  | zero => intro x _ _; simp [factorial_loop, Nat.factorial]
  | succ i ih =>
    intro x hx hbig
    have hfac : ((i + 1).factorial : Int) = ((i : Int) + 1) * (i.factorial : Int) := by
      push_cast [Nat.factorial_succ]; ring
    have hfpos : (1 : Int) ≤ (i.factorial : Int) := by
      exact_mod_cast Nat.one_le_iff_ne_zero.mpr i.factorial_ne_zero
    have hipos : (0 : Int) < (i : Int) + 1 := by positivity
    have hxi : 1 ≤ x * ((i : Int) + 1) := by nlinarith
    have hlt : x * ((i : Int) + 1) < 2 ^ 31 := by nlinarith
    have hw : wrap32 (x * ((i : Int) + 1)) = x * ((i : Int) + 1) :=
      wrap32_eq_self (by linarith) hlt
    have hne : x ≠ 0 := by omega
    have hdiv : Int.tdiv (x * ((i : Int) + 1)) x = (i : Int) + 1 :=
      Int.mul_tdiv_cancel_left _ hne
    have hrec := ih (x * ((i : Int) + 1)) hxi (by rw [mul_assoc, ← hfac]; exact hbig)
    simp only [factorial_loop, hw, hdiv]
    rw [if_neg (by simp)]
    rw [hrec, mul_assoc, ← hfac]

/-- As soon as some partial product reaches 2^31, the loop's overflow check
fires: the wrapped product divided back by the previous value can no longer
equal the multiplier, so the loop fails instead of returning a wrapped
value. -/
theorem factorial_loop_overflow (i : ℕ) : ∀ x : Int, 1 ≤ x → x < 2 ^ 31 →
    2 ^ 31 ≤ x * (i.factorial : Int) → factorial_loop i x = .error Err.overflowInt := by
  induction i with
  | zero =>
    intro x _ hxlt hbig
    simp [Nat.factorial] at hbig
    omega
  | succ i ih =>
    intro x hx hxlt hbig
    have hfac : ((i + 1).factorial : Int) = ((i : Int) + 1) * (i.factorial : Int) := by
      push_cast [Nat.factorial_succ]; ring
    have hfpos : (1 : Int) ≤ (i.factorial : Int) := by
      exact_mod_cast Nat.one_le_iff_ne_zero.mpr i.factorial_ne_zero
    have hipos : (0 : Int) < (i : Int) + 1 := by positivity
    have hxi : 1 ≤ x * ((i : Int) + 1) := by nlinarith
    have hne : x ≠ 0 := by omega
    by_cases hlt : x * ((i : Int) + 1) < 2 ^ 31
    · have hw : wrap32 (x * ((i : Int) + 1)) = x * ((i : Int) + 1) :=
        wrap32_eq_self (by linarith) hlt
      have hdiv : Int.tdiv (x * ((i : Int) + 1)) x = (i : Int) + 1 :=
        Int.mul_tdiv_cancel_left _ hne
      have hrec := ih (x * ((i : Int) + 1)) hxi hlt (by rw [mul_assoc, ← hfac]; exact hbig)
      simp only [factorial_loop, hw, hdiv]
      rw [if_neg (by simp)]
      exact hrec
    · push_neg at hlt
      set w := wrap32 (x * ((i : Int) + 1)) with hw
      have hwb := wrap32_bounds (x * ((i : Int) + 1))
      have hxpos : (0 : Int) < x := by omega
      have hdivlt : Int.tdiv w x < (i : Int) + 1 := by
        rcases le_or_lt 0 w with hw0 | hw0
        · rw [Int.tdiv_eq_ediv hw0 (by omega)]
          rw [Int.ediv_lt_iff_lt_mul hxpos]
          calc w < 2 ^ 31 := hwb.2
            _ ≤ x * ((i : Int) + 1) := hlt
            _ = ((i : Int) + 1) * x := by ring
        · have hneg : Int.tdiv w x = -(Int.tdiv (-w) x) := by
            rw [← Int.neg_tdiv, neg_neg]
          have hnn : 0 ≤ Int.tdiv (-w) x := Int.tdiv_nonneg (by omega) (by omega)
          omega
      have hcond : x ≠ 0 ∧ Int.tdiv w x ≠ (i : Int) + 1 := ⟨hne, by omega⟩
      simp only [factorial_loop, ← hw]
      rw [if_pos hcond]

/-- A negative truncated operand makes `factorial` throw. -/
theorem factorial_neg {x : Int} (h : x < 0) : factorial x = .error Err.negativeFactorial := by
  unfold factorial
  rw [if_pos h]

/-- When n! fits in a 32-bit `int` (so every intermediate product does,
they are all at most n!), `factorial` returns exactly n!. -/
theorem factorial_ok {x : Int} (h0 : 0 ≤ x) (hfit : (x.toNat.factorial : Int) < 2 ^ 31) :
    factorial x = .ok (x.toNat.factorial : Int) := by
  rcases eq_or_lt_of_le h0 with h | hpos
  · rw [← h]; rfl
  · have hne0 : x ≠ 0 := by omega
    have hxm : x = (x.toNat : Int) := (Int.toNat_of_nonneg h0).symm
    have hmpos : 1 ≤ x.toNat := by omega
    have hmm : x.toNat - 1 + 1 = x.toNat := Nat.succ_pred_eq_of_pos hmpos
    have hfac : x.toNat.factorial = x.toNat * (x.toNat - 1).factorial := by
      conv_lhs => rw [← hmm]
      rw [Nat.factorial_succ, hmm]
    have hval : x * ((x.toNat - 1).factorial : Int) = (x.toNat.factorial : Int) := by
      rw [hfac]; push_cast; rw [← hxm]
    have htn : (x - 1).toNat = x.toNat - 1 := by omega
    unfold factorial
    rw [if_neg (not_lt.mpr h0)]
    simp only [if_neg hne0, htn]
    rw [factorial_loop_ok _ x (by omega) (by rw [hval]; exact hfit), hval]

/-- When n! does not fit in a 32-bit `int`, `factorial` throws the overflow
error instead of returning any (wrapped) value. -/
theorem factorial_overflow {x : Int} (h0 : 0 ≤ x) (hx : x < 2 ^ 31)
    (hbig : 2 ^ 31 ≤ (x.toNat.factorial : Int)) : factorial x = .error Err.overflowInt := by
  rcases eq_or_lt_of_le h0 with h | hpos
  · exfalso
    rw [← h] at hbig
    norm_num [Nat.factorial] at hbig
  · have hne0 : x ≠ 0 := by omega
    have hxm : x = (x.toNat : Int) := (Int.toNat_of_nonneg h0).symm
    have hmpos : 1 ≤ x.toNat := by omega
    have hmm : x.toNat - 1 + 1 = x.toNat := Nat.succ_pred_eq_of_pos hmpos
    have hfac : x.toNat.factorial = x.toNat * (x.toNat - 1).factorial := by
      conv_lhs => rw [← hmm]
      rw [Nat.factorial_succ, hmm]
    have hval : x * ((x.toNat - 1).factorial : Int) = (x.toNat.factorial : Int) := by
      rw [hfac]; push_cast; rw [← hxm]
    have htn : (x - 1).toNat = x.toNat - 1 := by omega
    unfold factorial
    rw [if_neg (not_lt.mpr h0)]
    simp only [if_neg hne0, htn]
    exact factorial_loop_overflow _ x (by omega) hx (by rw [hval]; exact hbig)

/-- C4: for every operand value, the postfix `!` truncates it to an integer
n (`static_cast<int>` at src/main.cpp:411, modelled by `truncQ`) and hands
it to `factorial`, which fails with the negative-factorial error when n is
negative, returns exactly n! when n! fits in a 32-bit `int` (so all the
increasing intermediate products fit), and fails with the overflow error as
soon as the accumulating product leaves the 32-bit range, never returning a
wrapped value. -/
theorem factorial_spec (x : Int) (hx : x < 2 ^ 31) :
    (x < 0 → factorial x = .error Err.negativeFactorial) ∧
    (0 ≤ x → (x.toNat.factorial : Int) < 2 ^ 31 →
      factorial x = .ok (x.toNat.factorial : Int)) ∧
    (0 ≤ x → 2 ^ 31 ≤ (x.toNat.factorial : Int) →
      factorial x = .error Err.overflowInt) ∧
    (∀ (v : Value) (tbl : Symbol_table),
      secondary 30 tbl ⟨[numTok v, opTok '!', printTok], []⟩
        = match factorial (truncQ v) with
          | .ok f => .ok ((f : ℚ), tbl, ⟨[printTok], []⟩)
          | .error e => .error (e, (⟨[printTok], []⟩ : Token_stream))) := by
  refine ⟨fun h => factorial_neg h, fun h0 hfit => factorial_ok h0 hfit,
    fun h0 hbig => factorial_overflow h0 hx hbig, fun v tbl => rfl⟩

/-- Witness for `factorial_spec`: factorial of -1 fails as negative, 12!
still fits and is computed exactly, 13! overflows a 32-bit `int` and is
rejected. -/
theorem factorial_spec_witness :
    factorial (-1) = .error Err.negativeFactorial ∧
    factorial 12 = .ok (((12 : Int).toNat.factorial : Int)) ∧
    factorial 13 = .error Err.overflowInt :=
  ⟨(factorial_spec (-1) (by decide)).1 (by decide),
   (factorial_spec 12 (by decide)).2.1 (by decide) (by decide),
   (factorial_spec 13 (by decide)).2.2.1 (by decide) (by decide)⟩

/-- The fractional part removed by truncation toward zero: it is smaller
than one in magnitude and carries the sign of the argument. -/
theorem truncQ_sub_bounds (q : ℚ) :
    |q - (truncQ q : ℚ)| < 1 ∧ (0 ≤ q → 0 ≤ q - (truncQ q : ℚ)) ∧
    (q ≤ 0 → q - (truncQ q : ℚ) ≤ 0) := by
  rcases le_or_lt 0 q with h | h
  · rw [truncQ_eq_floor h]
    have h1 := Int.floor_le q
    have h2 := Int.sub_one_lt_floor q
    refine ⟨by rw [abs_lt]; constructor <;> linarith, fun _ => by linarith, fun hq0 => ?_⟩
    have hz : q = 0 := le_antisymm hq0 h
    rw [hz]
    simp
  · rw [truncQ_eq_ceil h.le]
    have h1 := Int.le_ceil q
    have h2 := Int.ceil_lt_add_one q
    exact ⟨by rw [abs_lt]; constructor <;> linarith,
      fun hq0 => absurd h (not_lt.mpr hq0), fun _ => by linarith⟩

/-- C10: with a nonzero right operand, the `%` case of `term` evaluates
`a % b` to `fmod(a, b)` applied to the full (untruncated) operands; the
result has magnitude smaller than |b| and the sign of a. -/
theorem fmod_spec (a b : Value) (hb : b ≠ 0) :
    (∀ tbl : Symbol_table,
      term 30 tbl ⟨[numTok a, opTok '%', numTok b, printTok], []⟩
        = .ok (fmodQ a b, tbl, ⟨[printTok], []⟩)) ∧
    fmodQ a b = a - (truncQ (a / b) : ℚ) * b ∧
    |fmodQ a b| < |b| ∧
    (0 ≤ a → 0 ≤ fmodQ a b) ∧
    (a ≤ 0 → fmodQ a b ≤ 0) := by
  have hkey : fmodQ a b = (a / b - (truncQ (a / b) : ℚ)) * b := by
    rw [sub_mul, div_mul_cancel₀ _ hb]
    rfl
  obtain ⟨habs, hpos, hneg⟩ := truncQ_sub_bounds (a / b)
  refine ⟨fun tbl => ?_, rfl, ?_, fun ha => ?_, fun ha => ?_⟩
  · have h : term 30 tbl ⟨[numTok a, opTok '%', numTok b, printTok], []⟩
        = if b = 0 then .error (Err.divideByZero true, (⟨[printTok], []⟩ : Token_stream))
          else .ok (fmodQ a b, tbl, ⟨[printTok], []⟩) := rfl
    rw [h, if_neg hb]
  · rw [hkey, abs_mul]
    calc |a / b - (truncQ (a / b) : ℚ)| * |b| < 1 * |b| :=
          mul_lt_mul_of_pos_right habs (abs_pos.mpr hb)
      _ = |b| := one_mul _
  · rw [hkey]
    rcases hb.lt_or_lt with hbneg | hbpos
    · have hq : a / b ≤ 0 := div_nonpos_iff.mpr (Or.inl ⟨ha, hbneg.le⟩)
      nlinarith [hneg hq]
    · have hq : 0 ≤ a / b := div_nonneg ha hbpos.le
      nlinarith [hpos hq]
  · rw [hkey]
    rcases hb.lt_or_lt with hbneg | hbpos
    · have hq : 0 ≤ a / b := div_nonneg_iff.mpr (Or.inr ⟨ha, hbneg.le⟩)
      nlinarith [hpos hq]
    · have hq : a / b ≤ 0 := div_nonpos_iff.mpr (Or.inr ⟨ha, hbpos.le⟩)
      nlinarith [hneg hq]

/-- Witness for `fmod_spec`: 7.5 mod 2 computed through `term` on a nonzero
divisor, with the remainder 1.5 showing that neither operand is truncated. -/
theorem fmod_spec_witness :
    ((2 : ℚ) ≠ 0) ∧
    term 30 [] ⟨[numTok (15 / 2), opTok '%', numTok 2, printTok], []⟩
      = .ok (fmodQ (15 / 2) 2, [], ⟨[printTok], []⟩) ∧
    fmodQ (15 / 2) 2 = 3 / 2 := by
  have h2 : (2 : ℚ) ≠ 0 := by norm_num
  refine ⟨h2, (fmod_spec (15 / 2) 2 h2).1 [], ?_⟩
  have htr : truncQ ((15 / 2 : ℚ) / 2) = 3 := by
    rw [truncQ_eq_floor (by norm_num)]
    rw [show ((15 / 2 : ℚ) / 2) = 15 / 4 by norm_num]
    have := Rat.floor_natCast_div_natCast 15 4
    push_cast at this
    rw [this]
  rw [(fmod_spec (15 / 2) 2 h2).2.1, htr]
  norm_num

/-- A name that is not declared is absent from every entry. -/
theorem is_declared_eq_false_iff (tbl : Symbol_table) (s : String) :
    Symbol_table.is_declared tbl s = false ↔ ∀ v ∈ tbl, v.name ≠ s := by
  unfold Symbol_table.is_declared
  rw [← Bool.not_eq_true, List.any_eq_true]
  simp

/-- Writing an undeclared name fails with the undefined-variable error. -/
theorem set_value_absent (tbl : Symbol_table) (s : String) (d : Value)
    (h : Symbol_table.is_declared tbl s = false) :
    Symbol_table.set_value tbl s d = .error (.undefinedWrite s) := by
  induction tbl with
  | nil => rfl
  | cons v rest ih =>
    have hall := (is_declared_eq_false_iff _ _).mp h
    have h1 : ¬(v.name = s) := hall v (by simp)
    have h2 : Symbol_table.is_declared rest s = false :=
      (is_declared_eq_false_iff _ _).mpr fun w hw => hall w (by simp [hw])
    simp only [Symbol_table.set_value]
    rw [if_neg h1, ih h2]

/-- Writing a name whose (first) entry is constant fails with the
constant-write error, leaving no way to change the stored value. -/
theorem set_value_first_constant (t1 t2 : Symbol_table) (v : Variable) (d : Value)
    (hfresh : ∀ w ∈ t1, w.name ≠ v.name) (hc : v.constant = true) :
    Symbol_table.set_value (t1 ++ v :: t2) v.name d = .error .constantWrite := by
  induction t1 with
  | nil =>
    simp only [List.nil_append, Symbol_table.set_value]
    simp [hc]
  | cons w t1 ih =>
    have hwne : w.name ≠ v.name := hfresh w (by simp)
    simp only [List.cons_append, Symbol_table.set_value]
    rw [if_neg hwne]
    rw [show Symbol_table.set_value (List.append t1 (v :: t2)) v.name d
        = Except.error Err.constantWrite from ih fun u hu => hfresh u (by simp [hu])]

/-- Writing a name whose (first) entry is mutable overwrites that entry in
place and leaves every other entry untouched. -/
theorem set_value_first_mutable (t1 t2 : Symbol_table) (v : Variable) (d : Value)
    (hfresh : ∀ w ∈ t1, w.name ≠ v.name) (hc : v.constant = false) :
    Symbol_table.set_value (t1 ++ v :: t2) v.name d
      = .ok (t1 ++ { v with value := d } :: t2) := by
  induction t1 with
  | nil =>
    simp only [List.nil_append, Symbol_table.set_value]
    simp [hc]
  | cons w t1 ih =>
    have hwne : w.name ≠ v.name := hfresh w (by simp)
    simp only [List.cons_append, Symbol_table.set_value]
    rw [if_neg hwne]
    rw [show Symbol_table.set_value (List.append t1 (v :: t2)) v.name d
        = Except.ok (t1 ++ { v with value := d } :: t2)
        from ih fun u hu => hfresh u (by simp [hu])]

/-- A successful `set_value` never changes the list of stored names. -/
theorem set_value_preserves_names {tbl tbl2 : Symbol_table} {s : String} {d : Value}
    (h : Symbol_table.set_value tbl s d = .ok tbl2) :
    tbl2.map Variable.name = tbl.map Variable.name := by
  induction tbl generalizing tbl2 with
  | nil => simp [Symbol_table.set_value] at h
  | cons v rest ih =>
    simp only [Symbol_table.set_value] at h
    by_cases hv : v.name = s
    · rw [if_pos hv] at h
      by_cases hc : v.constant = true
      · rw [if_pos hc] at h
        simp at h
      · rw [if_neg hc] at h
        simp only [Except.ok.injEq] at h
        rw [← h]
        simp
    · rw [if_neg hv] at h
      cases hrec : Symbol_table.set_value rest s d with
      | error e => rw [hrec] at h; simp at h
      | ok rest2 =>
        rw [hrec] at h
        simp only [Except.ok.injEq] at h
        rw [← h]
        simp [ih hrec]

/-- A successful `define_name` requires an absent name and appends the new
entry at the back of the table. -/
theorem define_name_ok {tbl tbl2 : Symbol_table} {var : String} {val v : Value} {c : Bool}
    (h : Symbol_table.define_name tbl var val c = .ok (v, tbl2)) :
    Symbol_table.is_declared tbl var = false ∧ tbl2 = tbl ++ [⟨var, val, c⟩] := by
  unfold Symbol_table.define_name at h
  by_cases hd : Symbol_table.is_declared tbl var = true
  · rw [if_pos hd] at h
    simp at h
  · rw [if_neg hd] at h
    simp only [Except.ok.injEq, Prod.mk.injEq] at h
    exact ⟨by simpa using hd, h.2.symm⟩

/-- Appending an entry with a fresh name preserves distinctness of names. -/
theorem nodup_append_fresh {tbl : Symbol_table} {v : Variable}
    (hn : (tbl.map Variable.name).Nodup) (hfresh : ∀ w ∈ tbl, w.name ≠ v.name) :
    ((tbl ++ [v]).map Variable.name).Nodup := by
  rw [List.map_append, List.nodup_append]
  refine ⟨hn, List.nodup_singleton _, ?_⟩
  intro a ha hb
  simp only [List.mem_map] at ha
  obtain ⟨w, hw, rfl⟩ := ha
  exact hfresh w hw (by simpa using hb)

/-- C8: in every reachable symbol-table state (startup table followed by
any sequence of operations, failures allowed), the stored names are
pairwise distinct: `define_name` fails with the duplicate-declaration
error on a present name and appends a fresh entry otherwise, and no
operation ever introduces a second entry with an existing name. -/
theorem symbol_names_distinct :
    (∀ tbl : Symbol_table, Reachable tbl → (tbl.map Variable.name).Nodup) ∧
    (∀ (tbl : Symbol_table) (var : String) (val : Value) (c : Bool),
      Symbol_table.is_declared tbl var = true →
      Symbol_table.define_name tbl var val c = .error (.duplicateDecl var)) ∧
    (∀ (tbl : Symbol_table) (var : String) (val : Value) (c : Bool),
      Symbol_table.is_declared tbl var = false →
      Symbol_table.define_name tbl var val c = .ok (val, tbl ++ [⟨var, val, c⟩])) := by
  refine ⟨?_, ?_, ?_⟩
  · intro tbl h
    induction h with
    | startup => decide
    | defineStep hr hok ih =>
      obtain ⟨hnd, htbl⟩ := define_name_ok hok
      rw [htbl]
      exact nodup_append_fresh ih ((is_declared_eq_false_iff _ _).mp hnd)
    | setStep hr hok ih =>
      rw [set_value_preserves_names hok]
      exact ih
  · intro tbl var val c h
    unfold Symbol_table.define_name
    rw [if_pos h]
  · intro tbl var val c h
    unfold Symbol_table.define_name
    rw [if_neg (by simp [h])]

/-- Witness for `symbol_names_distinct` at the startup table: its names are
distinct, redeclaring `pi` fails, and declaring a fresh `x` appends it. -/
theorem symbol_names_distinct_witness :
    (startup.map Variable.name).Nodup ∧
    Symbol_table.define_name startup "pi" 1 false = .error (.duplicateDecl "pi") ∧
    Symbol_table.define_name startup "x" 1 false = .ok (1, startup ++ [⟨"x", 1, false⟩]) :=
  ⟨symbol_names_distinct.1 startup .startup,
   symbol_names_distinct.2.1 startup "pi" 1 false rfl,
   symbol_names_distinct.2.2 startup "x" 1 false rfl⟩

/-- C6: `set_value` on a constant name fails with the constant-write error
and the stored value is unchanged (after attempting `pi = 4`, `pi` still
has value 3.1415926535); `set_value` on an absent name fails with the
undefined-variable error; otherwise it overwrites the value in place. -/
theorem set_value_spec :
    (∀ (t1 t2 : Symbol_table) (v : Variable) (d : Value),
      (∀ w ∈ t1, w.name ≠ v.name) → v.constant = true →
      Symbol_table.set_value (t1 ++ v :: t2) v.name d = .error .constantWrite) ∧
    (∀ (tbl : Symbol_table) (s : String) (d : Value),
      Symbol_table.is_declared tbl s = false →
      Symbol_table.set_value tbl s d = .error (.undefinedWrite s)) ∧
    (∀ (t1 t2 : Symbol_table) (v : Variable) (d : Value),
      (∀ w ∈ t1, w.name ≠ v.name) → v.constant = false →
      Symbol_table.set_value (t1 ++ v :: t2) v.name d
        = .ok (t1 ++ { v with value := d } :: t2)) ∧
    calculate 99 startup (mkTS "pi = 4\n") = ([Out.errorMsg Err.constantWrite], startup) ∧
    Symbol_table.get_value startup "pi" = .ok piVal ∧
    piVal = 3.1415926535 := by
  refine ⟨fun t1 t2 v d hf hc => set_value_first_constant t1 t2 v d hf hc,
    fun tbl s d h => set_value_absent tbl s d h,
    fun t1 t2 v d hf hc => set_value_first_mutable t1 t2 v d hf hc, rfl, rfl, ?_⟩
  unfold piVal
  rw [natToQ_eq, natToQ_eq]
  norm_num

/-- Witness for `set_value_spec` at the startup table: writing `pi` fails
as a constant, writing an unknown name fails as undefined, and writing the
mutable `k` overwrites it in place. -/
theorem set_value_spec_witness :
    Symbol_table.set_value startup "pi" 4 = .error .constantWrite ∧
    Symbol_table.set_value startup "nope" 4 = .error (.undefinedWrite "nope") ∧
    Symbol_table.set_value startup "k" 4
      = .ok [⟨"pi", piVal, true⟩, ⟨"e", eVal, true⟩, ⟨"k", 4, false⟩] :=
  ⟨set_value_spec.1 [] [⟨"e", eVal, true⟩, ⟨"k", natToQ 1000, false⟩] ⟨"pi", piVal, true⟩ 4
      (by simp) rfl,
   set_value_spec.2.1 startup "nope" 4 rfl,
   set_value_spec.2.2.1 [⟨"pi", piVal, true⟩, ⟨"e", eVal, true⟩] [] ⟨"k", natToQ 1000, false⟩ 4
      (by decide) rfl⟩

/-- C1 counterexample: the statement `-3!` does not evaluate to -6; running
the program on that exact input prints an error, not the value -6. -/
theorem neg_three_bang_counterexample :
    calculate 99 startup (mkTS "-3!\n") ≠ ([Out.result (-6)], startup) := by
  have h : calculate 99 startup (mkTS "-3!\n")
      = ([Out.errorMsg Err.negativeFactorial], startup) := rfl
  rw [h]
  intro hcontra
  have h2 := congrArg (fun p => p.1) hcontra
  simp at h2

/-- C1 amended: in `-3!` the unary minus is parsed inside Primary (yielding
the value -3) and the postfix `!` is then consumed at the Secondary level,
but applying it to -3 makes `factorial` throw, so the whole statement fails
with the negative-factorial error instead of producing -6. -/
theorem neg_three_bang_fails :
    primary 30 startup (mkTS "-3!\n") = .ok (-(natToQ 3), startup, ⟨[], "!\n".toList⟩) ∧
    factorial (truncQ (-(natToQ 3))) = .error Err.negativeFactorial ∧
    calculate 99 startup (mkTS "-3!\n") = ([Out.errorMsg Err.negativeFactorial], startup) :=
  ⟨rfl, rfl, rfl⟩

/-- C2: after the unrecognized character `@`, recovery only ever scans for
a `;` character (never a newline: `clean_up` passes `t_print` and the
`cin >> ch` scan skips newlines as whitespace), so with the input
`@` newline `1+2` newline, the valid statement on the second line is
swallowed by the recovery scan and never evaluates; with an explicit `;`
terminator after the `@` the next statement does evaluate normally. -/
theorem recovery_discards_following_statement :
    calculate 99 startup (mkTS "@\n1+2\n") = ([Out.errorMsg Err.badToken], startup) ∧
    calculate 99 startup (mkTS "@;1+2\n")
      = ([Out.errorMsg Err.badToken, Out.result 3], startup) := by
  refine ⟨rfl, ?_⟩
  have h : calculate 99 startup (mkTS "@;1+2\n")
      = ([Out.errorMsg Err.badToken, Out.result (natToQ 1 + natToQ 2)], startup) := rfl
  rw [h]
  norm_num [natToQ_eq]

/-- C3: each grammar level is strictly left associative and `*` binds
tighter than `+` (shown on number tokens with arbitrary values), and the
claim's concrete inputs evaluate as stated: `2+3*4` to 14, `2*3!` to 12
(postfix `!` binds tighter than `*`), `pow(2,3)` to 8. -/
theorem precedence_and_associativity :
    (∀ (a b c : Value) (tbl : Symbol_table),
      expression 30 tbl ⟨[numTok a, opTok '+', numTok b, opTok '*', numTok c, printTok], []⟩
        = .ok (a + b * c, tbl, ⟨[printTok], []⟩)) ∧
    (∀ (a b c : Value) (tbl : Symbol_table),
      expression 30 tbl ⟨[numTok a, opTok '-', numTok b, opTok '-', numTok c, printTok], []⟩
        = .ok ((a - b) - c, tbl, ⟨[printTok], []⟩)) ∧
    (∀ (a b c : Value) (tbl : Symbol_table),
      expression 30 tbl ⟨[numTok a, opTok '+', numTok b, opTok '+', numTok c, printTok], []⟩
        = .ok ((a + b) + c, tbl, ⟨[printTok], []⟩)) ∧
    (∀ (a b c : Value) (tbl : Symbol_table),
      expression 30 tbl ⟨[numTok a, opTok '*', numTok b, opTok '*', numTok c, printTok], []⟩
        = .ok ((a * b) * c, tbl, ⟨[printTok], []⟩)) ∧
    calculate 99 startup (mkTS "2+3*4\n") = ([Out.result 14], startup) ∧
    calculate 99 startup (mkTS "2*3!\n") = ([Out.result 12], startup) ∧
    calculate 99 startup (mkTS "pow(2,3)\n") = ([Out.result 8], startup) := by
  refine ⟨fun a b c tbl => rfl, fun a b c tbl => rfl, fun a b c tbl => rfl,
    fun a b c tbl => rfl, ?_, ?_, ?_⟩
  · have h : calculate 99 startup (mkTS "2+3*4\n")
        = ([Out.result (natToQ 2 + natToQ 3 * natToQ 4)], startup) := rfl
    rw [h]
    norm_num [natToQ_eq]
  · have h : calculate 99 startup (mkTS "2*3!\n")
        = ([Out.result (natToQ 2 * ((6 : ℤ) : ℚ))], startup) := rfl
    rw [h]
    norm_num [natToQ_eq]
  · have h : calculate 99 startup (mkTS "pow(2,3)\n")
        = ([Out.result (powQ (natToQ 2) (natToQ 3))], startup) := rfl
    have h2 : powQ (natToQ 2) (natToQ 3) = natToQ 2 ^ (3 : ℤ) := rfl
    rw [h, h2, natToQ_eq]
    norm_num

/-- C5: a zero right operand of `/` fails with the divide-by-zero error for
every left operand, and the whole failing statement leaves every variable
of the symbol table exactly as it was.  For `%` the claim does not survive
the lexer: `%` is missing from the tokenizer's punctuation switch
(src/main.cpp:185-200), so the input `10 % 0` dies earlier with the
"bad token" lexer error and the `%: divide by zero` branch of `term`
(src/main.cpp:440-447) is unreachable from text input, although on an
already-built `%` token it does fail with the divide-by-zero error. -/
theorem divide_by_zero_behavior :
    (∀ (a : Value) (tbl : Symbol_table),
      term 30 tbl ⟨[numTok a, opTok '/', numTok 0, printTok], []⟩
        = .error (Err.divideByZero false, (⟨[printTok], []⟩ : Token_stream))) ∧
    (∀ (a : Value) (tbl : Symbol_table),
      term 30 tbl ⟨[numTok a, opTok '%', numTok 0, printTok], []⟩
        = .error (Err.divideByZero true, (⟨[printTok], []⟩ : Token_stream))) ∧
    (∀ tbl : Symbol_table,
      calculate 99 tbl (mkTS "10 / 0\n") = ([Out.errorMsg (Err.divideByZero false)], tbl)) ∧
    (∀ tbl : Symbol_table,
      calculate 99 tbl (mkTS "10 % 0\n") = ([Out.errorMsg Err.badToken], tbl)) ∧
    Token_stream.get (mkTS "%") = .error (Err.badToken, ⟨[], []⟩) :=
  ⟨fun _ _ => rfl, fun _ _ => rfl, fun _ => rfl, fun _ => rfl, rfl⟩

/-- C7: a maximal alphanumeric word is matched case-sensitively against the
keyword table, whose quit entry is `quit`, not `exit`: the word `exit`
lexes as a Name token (and evaluating it reports an undefined variable
instead of quitting), while the word `quit` never even reaches the keyword
comparison because its leading `q` is consumed as the single-character quit
token; the other keywords map to their tokens and non-keywords to Name. -/
theorem exit_is_a_name_not_quit :
    Token_stream.get (mkTS "exit\n") = .ok (Token.mk t_name 0 "exit", ⟨[], ['\n']⟩) ∧
    calculate 99 startup (mkTS "exit\n")
      = ([Out.errorMsg (Err.undefinedRead "exit")], startup) ∧
    Token_stream.get (mkTS "quit now\n")
      = .ok (Token.mk t_quit 0 "", ⟨[], "uit now\n".toList⟩) ∧
    Token_stream.get (mkTS "let x\n") = .ok (Token.mk t_decl 0 "", ⟨[], " x\n".toList⟩) ∧
    Token_stream.get (mkTS "const x\n") = .ok (Token.mk t_const 0 "", ⟨[], " x\n".toList⟩) ∧
    Token_stream.get (mkTS "help\n") = .ok (Token.mk t_help 0 "", ⟨[], ['\n']⟩) ∧
    Token_stream.get (mkTS "symbols\n") = .ok (Token.mk t_symbols 0 "", ⟨[], ['\n']⟩) ∧
    Token_stream.get (mkTS "sqrt(4)\n") = .ok (Token.mk t_sqrt 0 "", ⟨[], "(4)\n".toList⟩) ∧
    Token_stream.get (mkTS "pow(2,3)\n") = .ok (Token.mk t_pow 0 "", ⟨[], "(2,3)\n".toList⟩) ∧
    Token_stream.get (mkTS "Exit\n") = .ok (Token.mk t_name 0 "Exit", ⟨[], ['\n']⟩) ∧
    Token_stream.get (mkTS "exit_2 \n") = .ok (Token.mk t_name 0 "exit_2", ⟨[], [' ', '\n']⟩) :=
  ⟨rfl, rfl, rfl, rfl, rfl, rfl, rfl, rfl, rfl, rfl, rfl⟩

/-- C9: `putback` followed by `get` returns exactly the pushed token and
restores the stream to its previous state, and two pushbacks come back in
LIFO order, which is the order the statement dispatcher's two-token
rollback (putback t2 then putback t, src/main.cpp:511-518) relies on. -/
theorem putback_get_lifo :
    (∀ (t : Token) (s : Token_stream), (s.putback t).get = .ok (t, s)) ∧
    (∀ (a b : Token) (s : Token_stream),
      ((s.putback a).putback b).get = .ok (b, s.putback a) ∧
      (s.putback a).get = .ok (a, s)) :=
  ⟨fun _ _ => rfl, fun _ _ _ => ⟨rfl, rfl⟩⟩
